import Mathlib

/-!
Shallow embedding of the taichi memory-pool subsystem
(taichi/memory_pool.cpp): the MemoryPool allocator list, the
bump allocator backing it, the cross-domain fetch accessor, the
request-queue polling daemon, and the terminate/destructor lifecycle.
Machine sizes are modelled as Nat; pointers are (buffer index, offset)
pairs inside the pool's allocator list.
-/

/-- Execution target from the program configuration (prog->config.arch):
the host CPU (x86_64) or the CUDA accelerator. -/
inductive Arch where
  | x86_64
  | cuda
deriving DecidableEq, Repr

/-- Rounds cursor up to the next multiple of alignment (the usual bump
alignment computation; callers pass a positive power-of-two alignment). -/
def alignUp (cursor alignment : Nat) : Nat :=
  (cursor + alignment - 1) / alignment * alignment

/-- Modelled from the spec: UnifiedAllocator, the per-buffer bump
allocator, is not part of the given source (only memory_pool.cpp is).
Per spec section 4.2 it owns one contiguous buffer of fixed capacity with
a residency flag and a monotonically advancing cursor. -/
structure UnifiedAllocator where
  capacity : Nat
  cursor : Nat
  use_cuda : Bool
deriving DecidableEq, Repr

/-- Modelled from the spec: bump allocation (spec section 4.2) computes
the next aligned offset from the cursor; if the range fits within
capacity it advances the cursor and returns the range's base offset,
otherwise it returns null (none). -/
def UnifiedAllocator.allocate (a : UnifiedAllocator) (size alignment : Nat) :
    Option (Nat × UnifiedAllocator) :=
  if alignUp a.cursor alignment + size ≤ a.capacity then
    some (alignUp a.cursor alignment,
          { a with cursor := alignUp a.cursor alignment + size })
  else
    none

/-- Modelled from the spec: construction of a UnifiedAllocator takes a
requested capacity and a residency flag and starts with an empty buffer
(cursor at 0). -/
def UnifiedAllocator.fresh (capacity : Nat) (use_cuda : Bool) : UnifiedAllocator :=
  { capacity := capacity, cursor := 0, use_cuda := use_cuda }

/-- A pointer returned by the pool: which buffer of the allocator list it
lies in, and the byte offset inside that buffer. -/
structure Ptr where
  buffer : Nat
  offset : Nat
deriving DecidableEq, Repr

/-- The MemoryPool state: the ordered allocator list (newest last), the
installed request-queue pointer (none models nullptr; some q models a
pointer to a queue identified by q), and the daemon bookkeeping fields
processed_tail, terminating, killed. -/
structure MemoryPool where
  allocators : List UnifiedAllocator
  queue : Option Nat
  processed_tail : Nat
  terminating : Bool
  killed : Bool
deriving DecidableEq, Repr

/-- The constructor MemoryPool::MemoryPool: terminating = false,
killed = false, processed_tail = 0, queue = nullptr, no allocators yet. -/
def MemoryPool.init : MemoryPool :=
  { allocators := [], queue := none, processed_tail := 0,
    terminating := false, killed := false }

/-- MemoryPool::set_queue: installs (or replaces) the queue pointer under
the lock; nothing else is touched. -/
def MemoryPool.set_queue (p : MemoryPool) (q : Option Nat) : MemoryPool :=
  { p with queue := q }

/-- The first allocation attempt of MemoryPool::allocate: if the
allocator list is non-empty, try the last (most recent) allocator;
the result is null (none) when the list is empty or that attempt fails. -/
def tryLastAlloc (p : MemoryPool) (size alignment : Nat) :
    Option (Nat × UnifiedAllocator) :=
  match p.allocators.getLast? with
  | some a => a.allocate size alignment
  | none => none

/-- MemoryPool::allocate: try the last allocator first; on a null result
create one new UnifiedAllocator of capacity max(size,
default_allocator_size) with use_cuda = (arch == Arch::cuda), append it,
and retry against it. A none first component models the TC_ASSERT(ret)
firing (returned pointer still null). -/
def MemoryPool.allocate (arch : Arch) (default_allocator_size : Nat)
    (p : MemoryPool) (size alignment : Nat) : Option Ptr × MemoryPool :=
  match tryLastAlloc p size alignment with
  | some (off, a') =>
    (some ⟨p.allocators.length - 1, off⟩,
     { p with allocators := p.allocators.dropLast ++ [a'] })
  | none =>
    match (UnifiedAllocator.fresh (max size default_allocator_size)
        (decide (arch = Arch.cuda))).allocate size alignment with
    | some (off, a') =>
      (some ⟨p.allocators.length, off⟩,
       { p with allocators := p.allocators ++ [a'] })
    | none =>
      (none, { p with allocators := p.allocators ++
        [UnifiedAllocator.fresh (max size default_allocator_size)
          (decide (arch = Arch.cuda))] })

/-- Result of the cross-domain fetch: either the value, or the
TC_NOT_IMPLEMENTED signal raised when accelerator support is absent. -/
inductive FetchResult (T : Type) where
  | ok (v : T)
  | notImplemented
deriving DecidableEq, Repr

/-- Modelled from the spec: the accelerator copy primitive (cudaMemcpy
with cudaMemcpyDeviceToHost) is external to the given source; it performs
a synchronous copy of one sizeof(T)-byte value from accelerator memory
into host memory. -/
def cudaMemcpyDeviceToHost {T : Type} (deviceMem : Nat → T) (ptr : Nat) : T :=
  deviceMem ptr

/-- MemoryPool::fetch<T>: on the cuda target, a synchronous
device-to-host copy when TLANG_WITH_CUDA is compiled in (withCuda), else
TC_NOT_IMPLEMENTED; on the host target, a direct dereference. -/
def MemoryPool.fetch {T : Type} (arch : Arch) (withCuda : Bool)
    (hostMem deviceMem : Nat → T) (ptr : Nat) : FetchResult T :=
  if arch = Arch.cuda then
    if withCuda then FetchResult.ok (cudaMemcpyDeviceToHost deviceMem ptr)
    else FetchResult.notImplemented
  else
    FetchResult.ok (hostMem ptr)

/-- Outcome of one wake cycle of MemoryPool::daemon: the pool state
afterwards, whether the loop continues (false when break is taken or the
fetch raised TC_NOT_IMPLEMENTED, killing the thread), and whether the
queue's tail was observed via fetch. -/
structure DaemonStepResult where
  pool : MemoryPool
  continues : Bool
  fetched : Bool
deriving DecidableEq, Repr

/-- The daemon's read of queue->tail via fetch<tail_type>: the value at
that address is tailVal in whichever memory holds the queue. -/
def fetchTail (arch : Arch) (withCuda : Bool) (tailVal : Nat) : FetchResult Nat :=
  MemoryPool.fetch arch withCuda (fun _ => tailVal) (fun _ => tailVal) 0

/-- One wake cycle of MemoryPool::daemon, with tailVal the current
contents of queue->tail (the externally produced counter): if no queue is
installed, continue; else if terminating, set killed and break; else
fetch the tail and, when it exceeds processed_tail, advance
processed_tail by exactly one. -/
def daemonStep (arch : Arch) (withCuda : Bool) (p : MemoryPool)
    (tailVal : Nat) : DaemonStepResult :=
  match p.queue with
  | none => ⟨p, true, false⟩
  | some _ =>
    if p.terminating then
      ⟨{ p with killed := true }, false, false⟩
    else
      match fetchTail arch withCuda tailVal with
      | FetchResult.ok tail =>
        if p.processed_tail < tail then
          ⟨{ p with processed_tail := p.processed_tail + 1 }, true, true⟩
        else
          ⟨p, true, true⟩
      | FetchResult.notImplemented => ⟨p, false, true⟩

/-- Runs the daemon loop over a finite trace of observed tail values, one
per wake cycle, stopping early if a cycle exits the loop. -/
def runDaemonList (arch : Arch) (withCuda : Bool) :
    MemoryPool → List Nat → MemoryPool
  | p, [] => p
  | p, t :: ts =>
    if (daemonStep arch withCuda p t).continues then
      runDaemonList arch withCuda (daemonStep arch withCuda p t).pool ts
    else (daemonStep arch withCuda p t).pool

/-- Runs the daemon loop with a tail-value stream until the loop exits,
bounded by fuel wake cycles; none means the daemon was still running
after fuel cycles. -/
def runDaemon (arch : Arch) (withCuda : Bool) :
    Nat → MemoryPool → (Nat → Nat) → Option MemoryPool
  | 0, _, _ => none
  | Nat.succ n, p, ts =>
    if (daemonStep arch withCuda p (ts 0)).continues then
      runDaemon arch withCuda n (daemonStep arch withCuda p (ts 0)).pool
        (fun i => ts (i + 1))
    else some (daemonStep arch withCuda p (ts 0)).pool

/-- The pool together with its background thread: whether the daemon
thread is still running (joinable), how many times th->join() has been
invoked, and how many times terminate() has been invoked. -/
structure SystemState where
  pool : MemoryPool
  daemonRunning : Bool
  joinCount : Nat
  terminateCalls : Nat
deriving DecidableEq, Repr

/-- MemoryPool::terminate: set terminating under the lock, then
th->join() unconditionally (modelled as running the daemon to loop exit
when the thread is still alive, within fuel wake cycles; none means the
join never returned). The join is counted whether or not the thread was
still joinable. -/
def SystemState.terminate (arch : Arch) (withCuda : Bool) (fuel : Nat)
    (ts : Nat → Nat) (s : SystemState) : Option SystemState :=
  let s1 : SystemState :=
    { s with pool := { s.pool with terminating := true },
             terminateCalls := s.terminateCalls + 1 }
  if s1.daemonRunning then
    match runDaemon arch withCuda fuel s1.pool ts with
    | some p2 =>
      some { s1 with pool := p2, daemonRunning := false,
                     joinCount := s1.joinCount + 1 }
    | none => none
  else
    some { s1 with joinCount := s1.joinCount + 1 }

/-- MemoryPool::~MemoryPool: invoke terminate() only when the daemon has
not already set killed. -/
def SystemState.destructor (arch : Arch) (withCuda : Bool) (fuel : Nat)
    (ts : Nat → Nat) (s : SystemState) : Option SystemState :=
  if s.pool.killed then some s
  else SystemState.terminate arch withCuda fuel ts s

/-- Replays a list of (size, alignment) allocation requests against the
pool, keeping only the pool state. -/
def runAllocs (arch : Arch) (default_allocator_size : Nat)
    (p : MemoryPool) (reqs : List (Nat × Nat)) : MemoryPool :=
  reqs.foldl
    (fun q r => (MemoryPool.allocate arch default_allocator_size q r.1 r.2).2) p

/-- Invariant of reachable pools: the last buffer never has more than
default_allocator_size bytes of remaining capacity. -/
def lastOK (default_allocator_size : Nat) (p : MemoryPool) : Prop :=
  ∀ a, p.allocators.getLast? = some a →
    a.capacity ≤ a.cursor + default_allocator_size

/-- The pool of the spec's scenario: default_allocator_size = 1 MB and
ten allocate(64, 16) calls served. -/
def scenarioPool : MemoryPool :=
  runAllocs Arch.x86_64 1048576 MemoryPool.init (List.replicate 10 (64, 16))

theorem alignUp_ge (cursor alignment : Nat) (h : 0 < alignment) :
    cursor ≤ alignUp cursor alignment := by
  unfold alignUp
  have h1 := Nat.div_add_mod (cursor + alignment - 1) alignment
  have h2 : (cursor + alignment - 1) % alignment < alignment :=
    Nat.mod_lt _ h
  rw [Nat.mul_comm]
  omega

theorem alignUp_zero_left (alignment : Nat) : alignUp 0 alignment = 0 := by
  unfold alignUp
  match alignment with
  | 0 => rfl
  | Nat.succ n =>
    rw [Nat.zero_add, Nat.succ_sub_one, Nat.div_eq_of_lt (Nat.lt_succ_self n),
        Nat.zero_mul]

theorem fresh_allocate (c : Nat) (uc : Bool) (size alignment : Nat)
    (h : size ≤ c) :
    (UnifiedAllocator.fresh c uc).allocate size alignment =
      some (0, { capacity := c, cursor := size, use_cuda := uc }) := by
  unfold UnifiedAllocator.allocate UnifiedAllocator.fresh
  simp [alignUp_zero_left, h]

theorem allocate_preserves_fields (a a' : UnifiedAllocator)
    (size alignment off : Nat)
    (h : a.allocate size alignment = some (off, a')) :
    a'.capacity = a.capacity ∧ a'.use_cuda = a.use_cuda ∧
      a'.cursor = off + size ∧ off = alignUp a.cursor alignment := by
  unfold UnifiedAllocator.allocate at h
  split at h
  · obtain ⟨h1, h2⟩ := Prod.mk.inj (Option.some_inj.mp h)
    subst h2
    exact ⟨rfl, rfl, by rw [h1], h1.symm⟩
  · exact absurd h (by simp)

theorem fetchTail_ok_or (arch : Arch) (withCuda : Bool) (t : Nat) :
    fetchTail arch withCuda t = FetchResult.ok t ∨
      (arch = Arch.cuda ∧ withCuda = false ∧
        fetchTail arch withCuda t = FetchResult.notImplemented) := by
  cases arch <;> cases withCuda <;>
    simp [fetchTail, MemoryPool.fetch, cudaMemcpyDeviceToHost]

/-- Exhaustive description of one daemon wake cycle: idle (no queue),
termination, fetch failure, no new request, or exactly one request
processed. -/
theorem daemonStep_cases (arch : Arch) (withCuda : Bool) (p : MemoryPool)
    (t : Nat) :
    daemonStep arch withCuda p t = ⟨p, true, false⟩ ∨
    daemonStep arch withCuda p t = ⟨{ p with killed := true }, false, false⟩ ∨
    daemonStep arch withCuda p t = ⟨p, false, true⟩ ∨
    daemonStep arch withCuda p t = ⟨p, true, true⟩ ∨
    (p.processed_tail < t ∧
      daemonStep arch withCuda p t =
        ⟨{ p with processed_tail := p.processed_tail + 1 }, true, true⟩) := by
  unfold daemonStep
  cases hq : p.queue with
  | none => exact Or.inl rfl
  | some q =>
    dsimp only
    split
    · exact Or.inr (Or.inl rfl)
    · rcases fetchTail_ok_or arch withCuda t with h | ⟨_, _, h⟩
      · rw [h]
        dsimp only
        split
        · next hlt => exact Or.inr (Or.inr (Or.inr (Or.inr ⟨hlt, rfl⟩)))
        · exact Or.inr (Or.inr (Or.inr (Or.inl rfl)))
      · rw [h]
        exact Or.inr (Or.inr (Or.inl rfl))

theorem daemonStep_pt_mono (arch : Arch) (withCuda : Bool)
    (p : MemoryPool) (t : Nat) :
    p.processed_tail ≤ (daemonStep arch withCuda p t).pool.processed_tail := by
  rcases daemonStep_cases arch withCuda p t with h | h | h | h | ⟨_, h⟩ <;>
    simp [h]

theorem daemonStep_pt_le_succ (arch : Arch) (withCuda : Bool)
    (p : MemoryPool) (t : Nat) :
    (daemonStep arch withCuda p t).pool.processed_tail ≤ p.processed_tail + 1 := by
  rcases daemonStep_cases arch withCuda p t with h | h | h | h | ⟨_, h⟩ <;>
    simp [h]

theorem daemonStep_killed_mono (arch : Arch) (withCuda : Bool)
    (p : MemoryPool) (t : Nat) (h : p.killed = true) :
    (daemonStep arch withCuda p t).pool.killed = true := by
  rcases daemonStep_cases arch withCuda p t with hc | hc | hc | hc | ⟨_, hc⟩ <;>
    simp [hc, h]

theorem runDaemonList_pt_mono (arch : Arch) (withCuda : Bool)
    (p : MemoryPool) (ts : List Nat) :
    p.processed_tail ≤ (runDaemonList arch withCuda p ts).processed_tail := by
  induction ts generalizing p with
  | nil => exact Nat.le_refl _
  | cons t ts ih =>
    unfold runDaemonList
    split
    · exact Nat.le_trans (daemonStep_pt_mono arch withCuda p t) (ih _)
    · exact daemonStep_pt_mono arch withCuda p t

theorem runDaemonList_pt_le (arch : Arch) (withCuda : Bool)
    (ts : List Nat) (p : MemoryPool) (t : Nat)
    (h0 : ∀ u ∈ ts, p.processed_tail ≤ u)
    (h1 : p.processed_tail ≤ t)
    (h2 : ∀ u ∈ ts, u ≤ t)
    (hpair : List.Pairwise (fun a b => a ≤ b) ts) :
    (runDaemonList arch withCuda p ts).processed_tail ≤ t := by
  induction ts generalizing p with
  | nil => exact h1
  | cons u ts ih =>
    have hstep :
        (daemonStep arch withCuda p u).pool.processed_tail ≤ u ∨
        (daemonStep arch withCuda p u).pool.processed_tail = p.processed_tail := by
      rcases daemonStep_cases arch withCuda p u with h | h | h | h | ⟨hlt, h⟩ <;>
        rw [h]
      · exact Or.inr rfl
      · exact Or.inr rfl
      · exact Or.inr rfl
      · exact Or.inr rfl
      · exact Or.inl hlt
    have hu : u ≤ t := h2 u (List.mem_cons_self u ts)
    have hpu : p.processed_tail ≤ u := h0 u (List.mem_cons_self u ts)
    have hnext : (daemonStep arch withCuda p u).pool.processed_tail ≤ u := by
      rcases hstep with h | h
      · exact h
      · rw [h]; exact hpu
    unfold runDaemonList
    split
    · refine ih (daemonStep arch withCuda p u).pool ?_ ?_ ?_ ?_
      · intro v hv
        exact Nat.le_trans hnext (List.rel_of_pairwise_cons hpair hv)
      · exact Nat.le_trans hnext hu
      · intro v hv
        exact h2 v (List.mem_cons_of_mem u hv)
      · exact hpair.of_cons
    · exact Nat.le_trans hnext hu

theorem lastOK_init (d : Nat) : lastOK d MemoryPool.init := by
  intro a ha
  simp [MemoryPool.init] at ha

theorem lastOK_allocate (arch : Arch) (d : Nat) (p : MemoryPool)
    (size alignment : Nat) (halign : 0 < alignment)
    (h : lastOK d p) :
    lastOK d (MemoryPool.allocate arch d p size alignment).2 := by
  unfold MemoryPool.allocate
  cases htry : tryLastAlloc p size alignment with
  | some pr =>
    obtain ⟨off, a'⟩ := pr
    simp only
    intro b hb
    rw [List.getLast?_concat] at hb
    have hb' : a' = b := Option.some_inj.mp hb
    subst hb'
    unfold tryLastAlloc at htry
    cases hlast : p.allocators.getLast? with
    | none => rw [hlast] at htry; exact absurd htry (by simp)
    | some a =>
      rw [hlast] at htry
      obtain ⟨hcap, _, hcur, hoff⟩ :=
        allocate_preserves_fields a a' size alignment off htry
      have hle : a.capacity ≤ a.cursor + d := h a hlast
      have hcu : a.cursor ≤ off := hoff ▸ alignUp_ge a.cursor alignment halign
      rw [hcap, hcur]
      omega
  | none =>
    have hfr := fresh_allocate (max size d) (decide (arch = Arch.cuda))
      size alignment (Nat.le_max_left size d)
    simp only [hfr]
    intro b hb
    rw [List.getLast?_concat] at hb
    have hb' := Option.some_inj.mp hb
    rw [← hb']
    simp only
    omega

theorem lastOK_runAllocs (arch : Arch) (d : Nat) (p : MemoryPool)
    (reqs : List (Nat × Nat)) (hreqs : ∀ r ∈ reqs, 0 < r.2)
    (h : lastOK d p) :
    lastOK d (runAllocs arch d p reqs) := by
  induction reqs generalizing p with
  | nil => exact h
  | cons r reqs ih =>
    unfold runAllocs
    rw [List.foldl_cons]
    exact ih _ (fun r' hr' => hreqs r' (List.mem_cons_of_mem r hr'))
      (lastOK_allocate arch d p r.1 r.2 (hreqs r (List.mem_cons_self r reqs)) h)

theorem tryLastAlloc_none_of_lastOK (d : Nat) (p : MemoryPool)
    (size alignment : Nat) (halign : 0 < alignment) (hsize : d < size)
    (h : lastOK d p) :
    tryLastAlloc p size alignment = none := by
  unfold tryLastAlloc
  cases hlast : p.allocators.getLast? with
  | none => rfl
  | some a =>
    have hle : a.capacity ≤ a.cursor + d := h a hlast
    have hcu : a.cursor ≤ alignUp a.cursor alignment :=
      alignUp_ge a.cursor alignment halign
    unfold UnifiedAllocator.allocate
    have hc : ¬ (alignUp a.cursor alignment + size ≤ a.capacity) := by omega
    simp [hc]

/-- C1: MemoryPool::allocate first tries the last (most recent) allocator
when one exists; when that attempt returns null (or no allocator exists)
it creates exactly one new allocator of capacity
max(size, default_allocator_size) with accelerator residency iff the
configured arch is cuda, appends it as the new last allocator, and
retries the same size/alignment request against it. -/
theorem C1_allocate_growth_algorithm (arch : Arch) (d : Nat)
    (p : MemoryPool) (size alignment : Nat) :
    (∀ off a', tryLastAlloc p size alignment = some (off, a') →
        MemoryPool.allocate arch d p size alignment =
          (some ⟨p.allocators.length - 1, off⟩,
           { p with allocators := p.allocators.dropLast ++ [a'] })) ∧
    (tryLastAlloc p size alignment = none →
        ((MemoryPool.allocate arch d p size alignment).2.allocators.length =
            p.allocators.length + 1 ∧
         ((MemoryPool.allocate arch d p size alignment).2.allocators.getLast?).map
             (fun a => (a.capacity, a.use_cuda)) =
           some (max size d, decide (arch = Arch.cuda)) ∧
         (MemoryPool.allocate arch d p size alignment).1 =
           ((UnifiedAllocator.fresh (max size d)
               (decide (arch = Arch.cuda))).allocate size alignment).map
             (fun pr => ⟨p.allocators.length, pr.1⟩))) := by
  constructor
  · intro off a' htry
    unfold MemoryPool.allocate
    rw [htry]
  · intro htry
    unfold MemoryPool.allocate
    rw [htry]
    cases hfr : (UnifiedAllocator.fresh (max size d)
        (decide (arch = Arch.cuda))).allocate size alignment with
    | some pr =>
      obtain ⟨off, a'⟩ := pr
      obtain ⟨hcap, hcu, _, _⟩ :=
        allocate_preserves_fields _ a' size alignment off hfr
      refine ⟨by simp, ?_, by simp⟩
      rw [List.getLast?_concat]
      simp [hcap, hcu, UnifiedAllocator.fresh]
    | none =>
      refine ⟨by simp, ?_, by simp⟩
      rw [List.getLast?_concat]
      simp [UnifiedAllocator.fresh]

/-- C1 witness: on the empty pool the first attempt is null, and one new
allocator of capacity max(64, 1024) is created and used. -/
theorem C1_witness :
    (MemoryPool.allocate Arch.x86_64 1024 MemoryPool.init 64 16).2.allocators.length =
        MemoryPool.init.allocators.length + 1 ∧
    ((MemoryPool.allocate Arch.x86_64 1024 MemoryPool.init 64 16).2.allocators.getLast?).map
        (fun a => (a.capacity, a.use_cuda)) =
      some (max 64 1024, decide (Arch.x86_64 = Arch.cuda)) ∧
    (MemoryPool.allocate Arch.x86_64 1024 MemoryPool.init 64 16).1 =
      ((UnifiedAllocator.fresh (max 64 1024)
          (decide (Arch.x86_64 = Arch.cuda))).allocate 64 16).map
        (fun pr => ⟨MemoryPool.init.allocators.length, pr.1⟩) :=
  (C1_allocate_growth_algorithm Arch.x86_64 1024 MemoryPool.init 64 16).2 rfl

/-- C4: allocate returns a non-null pointer whenever a freshly created
buffer of capacity max(size, default_allocator_size) can satisfy the
size/alignment request; the TC_ASSERT(ret) (null after creating the new
buffer) never fires under this precondition. -/
theorem C4_allocate_nonnull (arch : Arch) (d : Nat) (p : MemoryPool)
    (size alignment : Nat)
    (h : ((UnifiedAllocator.fresh (max size d)
        (decide (arch = Arch.cuda))).allocate size alignment).isSome = true) :
    ((MemoryPool.allocate arch d p size alignment).1).isSome = true := by
  unfold MemoryPool.allocate
  cases htry : tryLastAlloc p size alignment with
  | some pr => obtain ⟨off, a'⟩ := pr; rfl
  | none =>
    cases hfr : (UnifiedAllocator.fresh (max size d)
        (decide (arch = Arch.cuda))).allocate size alignment with
    | some pr => obtain ⟨off, a'⟩ := pr; rfl
    | none => rw [hfr] at h; exact absurd h (by simp)

/-- C4 witness at a concrete request on the empty pool. -/
theorem C4_witness :
    ((UnifiedAllocator.fresh (max 64 1024)
        (decide (Arch.x86_64 = Arch.cuda))).allocate 64 16).isSome = true ∧
    ((MemoryPool.allocate Arch.x86_64 1024 MemoryPool.init 64 16).1).isSome = true :=
  ⟨by decide, C4_allocate_nonnull Arch.x86_64 1024 MemoryPool.init 64 16 (by decide)⟩

/-- C5: the cross-domain fetch is a direct dereference on the host
target; on the cuda target it is a synchronous device-to-host copy when
accelerator support is compiled in, and the definite TC_NOT_IMPLEMENTED
signal when it is not. -/
theorem C5_fetch_cross_domain {T : Type} (arch : Arch) (withCuda : Bool)
    (hostMem deviceMem : Nat → T) (ptr : Nat) :
    (arch ≠ Arch.cuda →
        MemoryPool.fetch arch withCuda hostMem deviceMem ptr =
          FetchResult.ok (hostMem ptr)) ∧
    (arch = Arch.cuda → withCuda = true →
        MemoryPool.fetch arch withCuda hostMem deviceMem ptr =
          FetchResult.ok (cudaMemcpyDeviceToHost deviceMem ptr)) ∧
    (arch = Arch.cuda → withCuda = false →
        MemoryPool.fetch arch withCuda hostMem deviceMem ptr =
          FetchResult.notImplemented) := by
  refine ⟨?_, ?_, ?_⟩
  · intro h
    simp [MemoryPool.fetch, h]
  · intro h hw
    simp [MemoryPool.fetch, h, hw]
  · intro h hw
    simp [MemoryPool.fetch, h, hw]

/-- C5 witness: all three cases at concrete memories. -/
theorem C5_witness :
    MemoryPool.fetch Arch.x86_64 true (fun _ => (7 : Nat)) (fun _ => 9) 0 =
        FetchResult.ok ((fun _ => (7 : Nat)) 0) ∧
    MemoryPool.fetch Arch.cuda true (fun _ => (7 : Nat)) (fun _ => 9) 0 =
        FetchResult.ok (cudaMemcpyDeviceToHost (fun _ => (9 : Nat)) 0) ∧
    MemoryPool.fetch Arch.cuda false (fun _ => (7 : Nat)) (fun _ => (9 : Nat)) 0 =
        FetchResult.notImplemented :=
  ⟨(C5_fetch_cross_domain Arch.x86_64 true (fun _ => 7) (fun _ => 9) 0).1
      (by decide),
   (C5_fetch_cross_domain Arch.cuda true (fun _ => 7) (fun _ => 9) 0).2.1 rfl rfl,
   (C5_fetch_cross_domain Arch.cuda false (fun _ => 7) (fun _ => 9) 0).2.2 rfl rfl⟩

theorem daemonStep_terminating (arch : Arch) (withCuda : Bool)
    (p : MemoryPool) (t : Nat) (hq : p.queue.isSome = true)
    (ht : p.terminating = true) :
    daemonStep arch withCuda p t = ⟨{ p with killed := true }, false, false⟩ := by
  unfold daemonStep
  cases hqq : p.queue with
  | none => rw [hqq] at hq; exact absurd hq (by simp)
  | some q =>
    dsimp only
    rw [if_pos ht]

theorem terminate_succeeds (arch : Arch) (withCuda : Bool) (s : SystemState)
    (fuel : Nat) (ts : Nat → Nat)
    (hq : s.pool.queue.isSome = true) (hr : s.daemonRunning = true) :
    ∃ s2, SystemState.terminate arch withCuda (fuel + 1) ts s = some s2 ∧
      s2.pool.killed = true ∧ s2.daemonRunning = false ∧
      s2.joinCount = s.joinCount + 1 ∧
      s2.terminateCalls = s.terminateCalls + 1 := by
  have hq' : ({ s.pool with terminating := true } : MemoryPool).queue.isSome = true := by
    dsimp only
    exact hq
  have hstep := daemonStep_terminating arch withCuda
    { s.pool with terminating := true } (ts 0) hq' rfl
  unfold SystemState.terminate
  dsimp only
  rw [hr]
  simp only [if_pos]
  simp only [runDaemon, hstep]
  exact ⟨_, rfl, rfl, rfl, rfl, rfl⟩

/-- C2: over any daemon execution, processed_tail moves by at most one
per wake cycle and never backward; a polling cycle with a reachable queue
advances it by exactly one iff the observed tail exceeds it; and along
any trace of observed tails that is non-decreasing (the queue's tail is
externally monotone), processed_tail never exceeds any later observed
tail, so processed_tail <= tail at every observation point. -/
theorem C2_daemon_fifo (arch : Arch) (withCuda : Bool) :
    (∀ (p : MemoryPool) (t : Nat),
        p.processed_tail ≤ (daemonStep arch withCuda p t).pool.processed_tail ∧
        (daemonStep arch withCuda p t).pool.processed_tail ≤
          p.processed_tail + 1) ∧
    (∀ (p : MemoryPool) (t : Nat), p.queue.isSome = true →
        p.terminating = false → (arch = Arch.cuda → withCuda = true) →
        (daemonStep arch withCuda p t).pool.processed_tail =
          (if p.processed_tail < t then p.processed_tail + 1
           else p.processed_tail)) ∧
    (∀ (ts1 : List Nat) (t : Nat) (ts2 : List Nat) (p : MemoryPool),
        p.processed_tail = 0 →
        List.Pairwise (fun a b => a ≤ b) (ts1 ++ t :: ts2) →
        (runDaemonList arch withCuda p ts1).processed_tail ≤ t) := by
  refine ⟨fun p t => ⟨daemonStep_pt_mono arch withCuda p t,
      daemonStep_pt_le_succ arch withCuda p t⟩, ?_, ?_⟩
  · intro p t hq ht hok
    have hf : fetchTail arch withCuda t = FetchResult.ok t := by
      rcases fetchTail_ok_or arch withCuda t with h | ⟨ha, hw, _⟩
      · exact h
      · rw [hok ha] at hw
        exact absurd hw (by simp)
    unfold daemonStep
    cases hqq : p.queue with
    | none => rw [hqq] at hq; exact absurd hq (by simp)
    | some q =>
      dsimp only
      rw [if_neg (by simp [ht]), hf]
      by_cases hlt : p.processed_tail < t
      · simp [hlt]
      · simp [hlt]
  · intro ts1 t ts2 p h0 hpair
    have hsplit := List.pairwise_append.mp hpair
    refine runDaemonList_pt_le arch withCuda ts1 p t ?_ ?_ ?_ hsplit.1
    · intro u _
      rw [h0]
      exact Nat.zero_le u
    · rw [h0]
      exact Nat.zero_le t
    · intro u hu
      exact hsplit.2.2 u hu t (List.mem_cons_self t ts2)

/-- C2 witness: a concrete two-cycle trace with an installed queue. -/
theorem C2_witness :
    (runDaemonList Arch.x86_64 true
        { MemoryPool.init with queue := some 0 } [1, 2]).processed_tail ≤ 2 :=
  (C2_daemon_fifo Arch.x86_64 true).2.2 [1, 2] 2 []
    { MemoryPool.init with queue := some 0 } rfl (by decide)

/-- C3 counterexample: the wake cycle checks for a missing queue before
checking terminating, so with no queue installed the daemon never
observes terminating (killed stays false and the loop continues), and
terminate() does not return (the join is still pending after 30 wake
cycles). The claim fails when no queue is installed. -/
theorem C3_counterexample :
    (daemonStep Arch.x86_64 true
        { MemoryPool.init with terminating := true } 0).pool.killed = false ∧
    (daemonStep Arch.x86_64 true
        { MemoryPool.init with terminating := true } 0).continues = true ∧
    SystemState.terminate Arch.x86_64 true 30 (fun _ => 0)
        { pool := MemoryPool.init, daemonRunning := true,
          joinCount := 0, terminateCalls := 0 } = none := by
  refine ⟨rfl, rfl, ?_⟩
  decide

/-- C3 amended: provided a queue is installed, once terminating is set
the daemon observes it on its next wake cycle, sets killed = true as its
last action and exits the loop, and terminate() then returns with killed
observed true. (With no queue installed, the daemon skips the
terminating check and terminate() never returns.) -/
theorem C3_terminate_with_queue (arch : Arch) (withCuda : Bool)
    (p : MemoryPool) (t : Nat) (fuel : Nat) (ts : Nat → Nat)
    (s : SystemState) :
    (p.queue.isSome = true → p.terminating = true →
        daemonStep arch withCuda p t =
          ⟨{ p with killed := true }, false, false⟩) ∧
    (s.pool.queue.isSome = true → s.daemonRunning = true →
        (SystemState.terminate arch withCuda (fuel + 1) ts s).map
            (fun s2 => s2.pool.killed) = some true) := by
  constructor
  · exact daemonStep_terminating arch withCuda p t
  · intro hq hr
    obtain ⟨s2, hs2, hk, _, _, _⟩ :=
      terminate_succeeds arch withCuda s fuel ts hq hr
    rw [hs2]
    simp [hk]

/-- C3 witness: a concrete pool with an installed queue terminates with
killed observed true after one wake cycle. -/
theorem C3_witness :
    (daemonStep Arch.x86_64 true
        { MemoryPool.init with queue := some 0, terminating := true } 0 =
      ⟨{ { MemoryPool.init with queue := some 0, terminating := true } with
          killed := true }, false, false⟩) ∧
    (SystemState.terminate Arch.x86_64 true (0 + 1) (fun _ => 0)
        { pool := { MemoryPool.init with queue := some 0 },
          daemonRunning := true, joinCount := 0, terminateCalls := 0 }).map
        (fun s2 => s2.pool.killed) = some true :=
  ⟨(C3_terminate_with_queue Arch.x86_64 true
      { MemoryPool.init with queue := some 0, terminating := true } 0 0
      (fun _ => 0)
      { pool := { MemoryPool.init with queue := some 0 },
        daemonRunning := true, joinCount := 0, terminateCalls := 0 }).1
      rfl rfl,
   (C3_terminate_with_queue Arch.x86_64 true
      { MemoryPool.init with queue := some 0, terminating := true } 0 0
      (fun _ => 0)
      { pool := { MemoryPool.init with queue := some 0 },
        daemonRunning := true, joinCount := 0, terminateCalls := 0 }).2
      rfl rfl⟩

/-- C6: a single allocate call with size > default_allocator_size, on any
pool reached from a fresh pool by positive-alignment requests, creates a
new buffer of capacity at least size and returns a non-null pointer into
that new buffer. -/
theorem C6_large_request_new_buffer (arch : Arch) (d : Nat)
    (reqs : List (Nat × Nat)) (size alignment : Nat) (p : MemoryPool)
    (hp : p = runAllocs arch d MemoryPool.init reqs)
    (hreqs : ∀ r ∈ reqs, 0 < r.2)
    (halign : 0 < alignment) (hsize : d < size) :
    (MemoryPool.allocate arch d p size alignment).1 =
        some ⟨p.allocators.length, 0⟩ ∧
    (MemoryPool.allocate arch d p size alignment).2.allocators.length =
        p.allocators.length + 1 ∧
    ∃ a, (MemoryPool.allocate arch d p size alignment).2.allocators.getLast? =
        some a ∧ size ≤ a.capacity := by
  have hOK : lastOK d p :=
    hp ▸ lastOK_runAllocs arch d MemoryPool.init reqs hreqs (lastOK_init d)
  have htry := tryLastAlloc_none_of_lastOK d p size alignment halign hsize hOK
  have hfr := fresh_allocate (max size d) (decide (arch = Arch.cuda))
    size alignment (Nat.le_max_left size d)
  unfold MemoryPool.allocate
  rw [htry, hfr]
  refine ⟨rfl, by simp, ?_⟩
  exact ⟨_, List.getLast?_concat _, Nat.le_max_left size d⟩

/-- C6 witness: the spec scenario — after ten allocate(64, 16) calls with
a 1 MB default buffer, allocate(2 MB, 16) creates a second buffer of at
least 2 MB and returns a pointer into it. -/
theorem C6_witness :
    (MemoryPool.allocate Arch.x86_64 1048576 scenarioPool 2097152 16).1 =
        some ⟨scenarioPool.allocators.length, 0⟩ ∧
    (MemoryPool.allocate Arch.x86_64 1048576 scenarioPool 2097152 16).2.allocators.length =
        scenarioPool.allocators.length + 1 ∧
    ∃ a, (MemoryPool.allocate Arch.x86_64 1048576 scenarioPool
        2097152 16).2.allocators.getLast? = some a ∧ 2097152 ≤ a.capacity :=
  C6_large_request_new_buffer Arch.x86_64 1048576
    (List.replicate 10 (64, 16)) 2097152 16 scenarioPool rfl
    (by decide) (by decide) (by decide)

/-- C7 counterexample: terminate() joins the background thread
unconditionally, so invoking it a second time on the already-stopped pool
performs a second join (joinCount reaches 2), contradicting the claim
that a second call never joins the thread a second time. -/
theorem C7_counterexample :
    ((SystemState.terminate Arch.x86_64 true 2 (fun _ => 0)
        { pool := { MemoryPool.init with queue := some 0 },
          daemonRunning := true, joinCount := 0,
          terminateCalls := 0 }).bind
      (fun s1 => SystemState.terminate Arch.x86_64 true 2 (fun _ => 0) s1)).map
        (fun s2 => s2.joinCount) = some 2 := by
  decide

/-- C7 amended: after terminate() has returned once, killed is observed
true from then on (no pool operation resets it); a second terminate()
call on the stopped pool returns without hanging but performs one more
join on the already-joined thread — double-join protection exists only
through the destructor's killed guard. -/
theorem C7_killed_persists (arch : Arch) (withCuda : Bool) (d : Nat)
    (p : MemoryPool) (q : Option Nat) (t size alignment : Nat)
    (s : SystemState) (fuel : Nat) (ts : Nat → Nat) :
    (p.killed = true → (daemonStep arch withCuda p t).pool.killed = true) ∧
    ((MemoryPool.set_queue p q).killed = p.killed) ∧
    ((MemoryPool.allocate arch d p size alignment).2.killed = p.killed) ∧
    (s.daemonRunning = false →
        SystemState.terminate arch withCuda fuel ts s =
          some { s with pool := { s.pool with terminating := true },
                        terminateCalls := s.terminateCalls + 1,
                        joinCount := s.joinCount + 1 }) := by
  refine ⟨daemonStep_killed_mono arch withCuda p t, rfl, ?_, ?_⟩
  · unfold MemoryPool.allocate
    cases tryLastAlloc p size alignment with
    | some pr => obtain ⟨off, a'⟩ := pr; rfl
    | none =>
      cases (UnifiedAllocator.fresh (max size d)
          (decide (arch = Arch.cuda))).allocate size alignment with
      | some pr => obtain ⟨off, a'⟩ := pr; rfl
      | none => rfl
  · intro hr
    unfold SystemState.terminate
    dsimp only
    rw [hr]
    rfl

/-- C7 witness: killed persists through a wake cycle, and the second
terminate() on a stopped system returns immediately with one more join. -/
theorem C7_witness :
    (daemonStep Arch.x86_64 true
        { MemoryPool.init with killed := true } 0).pool.killed = true ∧
    SystemState.terminate Arch.x86_64 true 2 (fun _ => 0)
        { pool := { MemoryPool.init with killed := true },
          daemonRunning := false, joinCount := 1, terminateCalls := 1 } =
      some { pool := { { MemoryPool.init with killed := true } with
                terminating := true },
             daemonRunning := false, joinCount := 1 + 1,
             terminateCalls := 1 + 1 } :=
  ⟨(C7_killed_persists Arch.x86_64 true 0
      { MemoryPool.init with killed := true } none 0 0 0
      { pool := { MemoryPool.init with killed := true },
        daemonRunning := false, joinCount := 1, terminateCalls := 1 }
      2 (fun _ => 0)).1 rfl,
   (C7_killed_persists Arch.x86_64 true 0
      { MemoryPool.init with killed := true } none 0 0 0
      { pool := { MemoryPool.init with killed := true },
        daemonRunning := false, joinCount := 1, terminateCalls := 1 }
      2 (fun _ => 0)).2.2.2 rfl⟩

/-- C8: the destructor invokes terminate() exactly when killed is false
(and never when killed is already true), and a destruction that does
invoke terminate() with a queue installed and the daemon alive joins the
background task before completing, so it does not outlive the pool. -/
theorem C8_destructor (arch : Arch) (withCuda : Bool) (fuel : Nat)
    (ts : Nat → Nat) (s : SystemState) :
    (s.pool.killed = false →
        SystemState.destructor arch withCuda fuel ts s =
          SystemState.terminate arch withCuda fuel ts s) ∧
    (s.pool.killed = true →
        SystemState.destructor arch withCuda fuel ts s = some s) ∧
    (s.pool.killed = false → s.pool.queue.isSome = true →
        s.daemonRunning = true →
        (SystemState.destructor arch withCuda (fuel + 1) ts s).map
            (fun s2 => s2.daemonRunning) = some false) := by
  refine ⟨?_, ?_, ?_⟩
  · intro hk
    unfold SystemState.destructor
    rw [hk]
    rfl
  · intro hk
    unfold SystemState.destructor
    rw [hk]
    rfl
  · intro hk hq hr
    obtain ⟨s2, hs2, _, hd, _, _⟩ :=
      terminate_succeeds arch withCuda s fuel ts hq hr
    unfold SystemState.destructor
    rw [hk, hs2]
    simp [hd]

/-- C8 witness: both guard directions and the join-before-completion
property at concrete states. -/
theorem C8_witness :
    (SystemState.destructor Arch.x86_64 true 3 (fun _ => 0)
        { pool := { MemoryPool.init with killed := true },
          daemonRunning := false, joinCount := 1, terminateCalls := 1 } =
      some { pool := { MemoryPool.init with killed := true },
             daemonRunning := false, joinCount := 1, terminateCalls := 1 }) ∧
    (SystemState.destructor Arch.x86_64 true (2 + 1) (fun _ => 0)
        { pool := { MemoryPool.init with queue := some 0 },
          daemonRunning := true, joinCount := 0, terminateCalls := 0 }).map
        (fun s2 => s2.daemonRunning) = some false :=
  ⟨(C8_destructor Arch.x86_64 true 3 (fun _ => 0)
      { pool := { MemoryPool.init with killed := true },
        daemonRunning := false, joinCount := 1, terminateCalls := 1 }).2.1 rfl,
   (C8_destructor Arch.x86_64 true 2 (fun _ => 0)
      { pool := { MemoryPool.init with queue := some 0 },
        daemonRunning := true, joinCount := 0,
        terminateCalls := 0 }).2.2 rfl rfl rfl⟩

/-- C9: with no queue installed and termination not requested, every wake
cycle leaves the pool (including processed_tail) unchanged, performs no
queue observation, signals no error and continues the loop, and any
number of wake cycles leaves the pool unchanged (idle but alive). -/
theorem C9_idle_without_queue (arch : Arch) (withCuda : Bool)
    (p : MemoryPool) (t : Nat) (ts : List Nat)
    (hq : p.queue = none) (_ht : p.terminating = false) :
    daemonStep arch withCuda p t = ⟨p, true, false⟩ ∧
    runDaemonList arch withCuda p ts = p := by
  have hstep : ∀ u, daemonStep arch withCuda p u = ⟨p, true, false⟩ := by
    intro u
    unfold daemonStep
    rw [hq]
  refine ⟨hstep t, ?_⟩
  induction ts with
  | nil => rfl
  | cons u ts ih =>
    unfold runDaemonList
    rw [hstep u]
    simpa using ih

/-- C9 witness: a fresh pool stays unchanged across a concrete trace. -/
theorem C9_witness :
    daemonStep Arch.x86_64 true MemoryPool.init 7 =
        ⟨MemoryPool.init, true, false⟩ ∧
    runDaemonList Arch.x86_64 true MemoryPool.init [5, 3, 9] =
        MemoryPool.init :=
  C9_idle_without_queue Arch.x86_64 true MemoryPool.init 7 [5, 3, 9] rfl rfl

/-- C10: set_queue changes only the installed queue pointer —
processed_tail, terminating, killed and the allocator list are untouched;
in particular processed_tail is not reset on a queue swap, and any
subsequent daemon run never drives processed_tail below its pre-swap
value, so indices of the new queue under that value are never
processed. -/
theorem C10_set_queue_frame (p : MemoryPool) (q : Option Nat)
    (arch : Arch) (withCuda : Bool) (ts : List Nat) :
    (MemoryPool.set_queue p q).processed_tail = p.processed_tail ∧
    (MemoryPool.set_queue p q).terminating = p.terminating ∧
    (MemoryPool.set_queue p q).killed = p.killed ∧
    (MemoryPool.set_queue p q).allocators = p.allocators ∧
    (MemoryPool.set_queue p q).queue = q ∧
    p.processed_tail ≤
      (runDaemonList arch withCuda (MemoryPool.set_queue p q) ts).processed_tail := by
  refine ⟨rfl, rfl, rfl, rfl, rfl, ?_⟩
  exact runDaemonList_pt_mono arch withCuda (MemoryPool.set_queue p q) ts
